import Mathlib

/-!
# Verification of the bazsport-web inventory core (`js/api.js`)

This file gives a shallow embedding of the data-mutating core of `js/api.js`:
the bulk sync routine `saveData`, the shift closer `saveShift`, the defect
recorder `addDefectiveItem` and the invoice committer `saveNewInvoice`, and
proves the specified properties about them.

The durable store collaborator (Firestore in the real program) is modelled as
keyed document collections: a collection is an association list from document
id to document, and the operations `getEntry` / `setEntry` / `deleteEntry`
embed the collaborator's get / set / delete capabilities (spec section 6).  An
atomic transaction (`runTransaction` in the source) is embedded as a function
from the database state to `Except`: on an error the original state is
returned unchanged, which is exactly the collaborator's all-or-nothing
contract.
-/

namespace BazSport

/-- A document collection: association list from document id to document. -/
abbrev Store (α : Type) : Type := List (String × α)

/-- Collaborator `get`: the first entry with the given key, if any. -/
def getEntry {α : Type} : Store α → String → Option α
  | [], _ => none
  | e :: rest, k => if e.1 = k then some e.2 else getEntry rest k

/-- Collaborator `set`: overwrite the entry with the given key, or append a
fresh entry when the key is absent. -/
def setEntry {α : Type} : Store α → String → α → Store α
  | [], k, v => [(k, v)]
  | e :: rest, k, v => if e.1 = k then (k, v) :: rest else e :: setEntry rest k v

/-- Collaborator `delete`: remove the entries with the given key. -/
def deleteEntry {α : Type} : Store α → String → Store α
  | [], _ => []
  | e :: rest, k => if e.1 = k then deleteEntry rest k else e :: deleteEntry rest k

/-- The ids present in a collection snapshot (`snapshot.docs.map(d => d.id)`). -/
def storeKeys {α : Type} (s : Store α) : List String :=
  s.map (fun e => e.1)

@[simp]
theorem getEntry_nil {α : Type} (k : String) : getEntry ([] : Store α) k = none := rfl

@[simp]
theorem getEntry_cons {α : Type} (e : String × α) (s : Store α) (k : String) :
    getEntry (e :: s) k = if e.1 = k then some e.2 else getEntry s k := rfl

@[simp]
theorem getEntry_setEntry_self {α : Type} (s : Store α) (k : String) (v : α) :
    getEntry (setEntry s k v) k = some v := by
  induction s with
  | nil => simp [setEntry]
  | cons e rest ih =>
    by_cases he : e.1 = k
    · simp [setEntry, he]
    · simp [setEntry, he, ih]

theorem getEntry_setEntry_ne {α : Type} (s : Store α) (k k' : String) (v : α)
    (h : k' ≠ k) : getEntry (setEntry s k v) k' = getEntry s k' := by
  induction s with
  | nil => simp [setEntry, Ne.symm h]
  | cons e rest ih =>
    by_cases he : e.1 = k
    · have h1 : ¬ k = k' := Ne.symm h
      have h2 : ¬ e.1 = k' := by rw [he] ; exact h1
      simp only [setEntry, if_pos he, getEntry_cons, if_neg h1, if_neg h2]
    · simp only [setEntry, if_neg he, getEntry_cons]
      by_cases he' : e.1 = k'
      · simp only [if_pos he']
      · simp only [if_neg he']
        exact ih

theorem getEntry_deleteEntry {α : Type} (s : Store α) (k k' : String) :
    getEntry (deleteEntry s k) k' = if k' = k then none else getEntry s k' := by
  induction s with
  | nil => simp [deleteEntry]
  | cons e rest ih =>
    by_cases hek : e.1 = k
    · simp only [deleteEntry, if_pos hek, ih, getEntry_cons]
      by_cases hkk : k' = k
      · simp [hkk]
      · have hek' : ¬ e.1 = k' := fun hh => hkk (hh.symm.trans hek)
        simp [hkk, hek']
    · simp only [deleteEntry, if_neg hek, getEntry_cons, ih]
      by_cases he' : e.1 = k'
      · have hkk : ¬ k' = k := fun hh => hek (he'.trans hh)
        simp [he', hkk]
      · simp [he']

theorem getEntry_eq_none_iff {α : Type} (s : Store α) (k : String) :
    getEntry s k = none ↔ k ∉ storeKeys s := by
  induction s with
  | nil => simp [storeKeys]
  | cons e rest ih =>
    by_cases hek : e.1 = k
    · simp [storeKeys, hek]
    · have hke : ¬ k = e.1 := fun hh => hek hh.symm
      simp only [getEntry_cons, if_neg hek]
      rw [ih]
      simp [storeKeys, hke]

theorem getEntry_mem {α : Type} (s : Store α) (k : String) (v : α)
    (h : getEntry s k = some v) : (k, v) ∈ s := by
  induction s with
  | nil => simp [getEntry] at h
  | cons e rest ih =>
    by_cases hek : e.1 = k
    · simp only [getEntry_cons, if_pos hek, Option.some.injEq] at h
      have : e = (k, v) := by
        rcases e with ⟨a, b⟩
        simp only at hek h
        rw [hek, h]
      rw [this]
      exact List.mem_cons_self _ _
    · exact List.mem_cons_of_mem _ (ih (by simpa [hek] using h))

theorem setEntry_forall_values {α : Type} (P : α → Prop) (s : Store α)
    (k : String) (v : α) (hs : ∀ e ∈ s, P e.2) (hv : P v) :
    ∀ e ∈ setEntry s k v, P e.2 := by
  induction s with
  | nil =>
    intro e he
    simp [setEntry] at he
    rw [he]
    exact hv
  | cons e0 rest ih =>
    intro e he
    by_cases he0 : e0.1 = k
    · simp only [setEntry, if_pos he0] at he
      rcases List.mem_cons.mp he with h | h
      · rw [h] ; exact hv
      · exact hs e (List.mem_cons_of_mem _ h)
    · simp only [setEntry, if_neg he0] at he
      rcases List.mem_cons.mp he with h | h
      · rw [h] ; exact hs e0 (List.mem_cons_self _ _)
      · exact ih (fun x hx => hs x (List.mem_cons_of_mem _ hx)) e h

/-! ## Data model (`js/api.js` documents)

A product document stores per-variant quantities under
`colors[color].sizes[size].quantity`.  The two fixed single-field wrappers
(`sizes`, `quantity`) are flattened away: `colors` maps a color name to a map
from size name to the `quantity` number.  Quantities and prices are JavaScript
numbers used integrally by the program and are embedded as `Int`. -/

structure Product where
  id : String
  name : String
  purchasePrice : Int
  colors : List (String × List (String × Int))
  deriving Repr, DecidableEq

/-- `product.colors?.[color]?.sizes?.[size]?.quantity || 0` (api.js line 178
and line 223).  For an integer quantity the JavaScript `|| 0` fallback is
exactly "default to 0 when the path is absent", since `0 || 0 === 0`. -/
def getQty (p : Product) (c s : String) : Int :=
  match getEntry p.colors c with
  | none => 0
  | some szs =>
    match getEntry szs s with
    | none => 0
    | some q => q

/-- The collaborator's nested-field update
`update(productRef, { ["colors." + c + ".sizes." + s + ".quantity"]: v })`
on an existing document: set the one nested field, creating the intermediate
color / size entries when absent and leaving every sibling field alone. -/
def setProductQty (p : Product) (c s : String) (v : Int) : Product :=
  { p with colors := setEntry p.colors c (setEntry ((getEntry p.colors c).getD []) s v) }

/-- The document produced when the nested-field quantity update addresses a
missing document under the set/merge capability of the store collaborator
(spec section 6): the document then holds only the written quantity path, and
the absent scalar fields read back as defaults. -/
def productFromQtyUpdate (c s : String) (v : Int) : Product :=
  { id := "", name := "", purchasePrice := 0, colors := [(c, [(s, v)])] }

/-- `defectData` as consumed by `addDefectiveItem` (api.js lines 167-196). -/
structure DefectData where
  id : String
  productId : String
  color : String
  size : String
  quantity : Int
  reason : String
  purchasePrice : Int
  supplierId : String
  shipmentDate : String
  deriving Repr, DecidableEq

/-- A flattened shipment line item pushed by `saveNewInvoice`
(api.js lines 230-237). -/
structure ShipmentLine where
  productId : String
  productName : String
  color : String
  size : String
  quantity : Int
  purchasePrice : Int
  deriving Repr, DecidableEq

/-- The `newShipment` record committed by `saveNewInvoice` (api.js line 204). -/
structure Shipment where
  id : String
  supplierId : String
  date : String
  shippingCost : Int
  items : List ShipmentLine
  totalCost : Int
  deriving Repr, DecidableEq

/-- One entry of `invoiceData.items` (api.js lines 208-220). -/
structure InvoiceItem where
  productId : String
  isNew : Bool
  productData : Option Product
  quantities : List (String × List (String × Int))
  deriving Repr, DecidableEq

/-- `invoiceData` as consumed by `saveNewInvoice` (api.js line 201). -/
structure InvoiceData where
  supplierId : String
  date : String
  shippingCost : Int
  items : List InvoiceItem
  deriving Repr, DecidableEq

/-- `shiftData` as consumed by `saveShift` (api.js lines 155-164). -/
structure Shift where
  id : String
  startedAt : String
  endedAt : String
  endedBy : String
  deriving Repr, DecidableEq

/-- The `app_config/main` document fields written by `saveData`
(api.js lines 85-91) and merged by `saveShift` (api.js line 158). -/
structure Config where
  categories : List String
  salaries : List (String × Int)
  salariesPaidStatus : List (String × Bool)
  rentAmount : Int
  lastShiftReportTime : Option String
  deriving Repr, DecidableEq

/-- The durable database state touched by the operations under proof. -/
structure DB where
  products : Store Product
  defects : Store DefectData
  shipments : Store Shipment
  shifts : Store Shift
  config : Config
  deriving Repr, DecidableEq

/-- Result value of an operation: `{success:true}` or
`{success:false, message}` (the catch branches of api.js). -/
inductive OpResult where
  | success : OpResult
  | failure (message : String) : OpResult
  deriving Repr, DecidableEq

/-- Result value of `saveNewInvoice`: `{success:true, id}` or
`{success:false, message}` (api.js lines 247-250). -/
inductive InvoiceResult where
  | success (id : String) : InvoiceResult
  | failure (message : String) : InvoiceResult
  deriving Repr, DecidableEq

/-! ## `addDefectiveItem` (api.js lines 167-196)

The `runTransaction` body either throws (product missing, or insufficient
stock) — in which case nothing is written and the catch branch returns the
failure — or updates the variant quantity and sets the new defect record in
one atomic commit. -/

def addDefectiveItem (st : DB) (d : DefectData) : DB × OpResult :=
  match getEntry st.products d.productId with
  | none => (st, .failure ("Product with ID " ++ d.productId ++ " not found."))
  | some product =>
    let currentQty := getQty product d.color d.size
    if currentQty < d.quantity then
      (st, .failure ("Cannot mark " ++ toString d.quantity ++
        " as defective. Only " ++ toString currentQty ++ " in stock."))
    else
      ({ st with
          products := setEntry st.products d.productId
            (setProductQty product d.color d.size (currentQty - d.quantity)),
          defects := setEntry st.defects d.id d },
        .success)

/-! ## `saveShift` (api.js lines 155-164)

Two sequential `setDoc` round-trips: the shift document, then a merge write of
`lastShiftReportTime` on the config document.  Each round-trip can fail on its
own; `ok1` / `ok2` say whether the respective write reaches the store.  A
failed first write leaves everything unchanged, but a failed second write
leaves the shift document already committed. -/

def saveShift (st : DB) (sd : Shift) (ok1 ok2 : Bool) : DB × OpResult :=
  if ok1 then
    let st1 := { st with shifts := setEntry st.shifts sd.id sd }
    if ok2 then
      ({ st1 with config := { st1.config with lastShiftReportTime := some sd.endedAt } },
        .success)
    else (st1, .failure "write failed")
  else (st, .failure "write failed")

/-! ## `saveData` (api.js lines 77-123)

`saveData` stages one batch: a merge write of the config document, then for
every collection an upsert of every in-memory record that carries a (truthy)
`id` and a delete of every existing id not among the incoming ids.  The
per-collection part is `syncCollection` below, generic in the record payload. -/

/-- An in-memory record as seen by `saveData`: possibly missing its `id`. -/
structure SyncRecord (α : Type) where
  id : Option String
  payload : α
  deriving Repr, DecidableEq

/-- JavaScript truthiness of `item.id` (api.js line 100): a missing id and the
empty string are both falsy. -/
def truthyId {α : Type} (r : SyncRecord α) : Option String :=
  match r.id with
  | none => none
  | some s => if s = "" then none else some s

/-- The `collData.forEach` upsert pass (api.js lines 99-107): stage
`batch.set(doc(db, collName, item.id), item)` for every record with a truthy
id, skip the rest. -/
def upsertRecords {α : Type} (s : Store (SyncRecord α)) :
    List (SyncRecord α) → Store (SyncRecord α)
  | [] => s
  | r :: rest =>
    upsertRecords
      (match truthyId r with
       | some i => setEntry s i r
       | none => s) rest

/-- The ids surviving the `existingIds.delete(item.id)` calls: the snapshot
ids minus every incoming truthy id (api.js lines 97-111). -/
def remainingIds {α : Type} (existingIds : List String)
    (recs : List (SyncRecord α)) : List String :=
  existingIds.filter (fun i => !(recs.any (fun r => truthyId r == some i)))

/-- The `existingIds.forEach` delete pass (api.js lines 109-111). -/
def deleteIds {α : Type} (s : Store α) : List String → Store α
  | [] => s
  | i :: rest => deleteIds (deleteEntry s i) rest

/-- One collection's slice of the committed `saveData` batch: upserts staged
in record order, then the deletes of the leftover snapshot ids. -/
def syncCollection {α : Type} (s : Store (SyncRecord α))
    (recs : List (SyncRecord α)) : Store (SyncRecord α) :=
  deleteIds (upsertRecords s recs) (remainingIds (storeKeys s) recs)

/-- The last incoming record carrying the given id, if any: the record whose
staged `batch.set` wins for that document. -/
def lastWithId {α : Type} : List (SyncRecord α) → String → Option (SyncRecord α)
  | [], _ => none
  | r :: rest, k =>
    (lastWithId rest k).or (if truthyId r == some k then some r else none)

/-- `categories.filter(c => c !== 'All')` (api.js line 84). -/
def savedCategories (categories : List String) : List String :=
  categories.filter (fun c => c ≠ "All")

/-- The merge write of the config document staged by `saveData`
(api.js lines 83-91): the written fields replace, the rest of the document is
kept. -/
def saveDataConfig (categories : List String) (salaries : List (String × Int))
    (salariesPaidStatus : List (String × Bool)) (rentAmount : Int)
    (lastShiftReportTime : Option String) (cfg : Config) : Config :=
  { cfg with
      categories := savedCategories categories,
      salaries := salaries,
      salariesPaidStatus := salariesPaidStatus,
      rentAmount := rentAmount,
      lastShiftReportTime := lastShiftReportTime }

/-! ## `saveNewInvoice` (api.js lines 200-252)

The transaction body walks the invoice items; for each item it optionally
creates the flagged-new product, reads the product document (falling back to
the item's `productData` payload when the document is absent), and then walks
the nested `quantities` map, staging one quantity update and pushing one
flattened shipment line per positive `(color, size, quantity)` entry while
accumulating the invoice total.  Finally the shipment record is set.  A throw
anywhere aborts the whole transaction. -/

/-- The staged quantity write
`transaction.update(productRef, { [fieldPath]: newQty })` (api.js line 226):
set the nested quantity field of the document addressed by `pid`, creating
the document from the written path alone when it is absent (the set/merge
capability of the store collaborator, spec section 6). -/
def storeSetQty (ps : Store Product) (pid c s : String) (v : Int) : Store Product :=
  match getEntry ps pid with
  | some p => setEntry ps pid (setProductQty p c s v)
  | none => setEntry ps pid (productFromQtyUpdate c s v)

/-- The inner `for (const [size, quantity] of Object.entries(sizes))` loop
(api.js lines 221-239) for one color: returns the staged products store, the
cost contributed to `totalInvoiceCost` and the shipment lines pushed.  The
current quantity is read from the `productData` snapshot `pd` taken once per
item, exactly as in the source. -/
def processSizes (ps : Store Product) (pid : String) (pd : Product) (c : String) :
    List (String × Int) → Store Product × Int × List ShipmentLine
  | [] => (ps, 0, [])
  | (s, q) :: rest =>
    if 0 < q then
      let ps1 := storeSetQty ps pid c s (getQty pd c s + q)
      let r := processSizes ps1 pid pd c rest
      (r.1, q * pd.purchasePrice + r.2.1,
        { productId := pid, productName := pd.name, color := c, size := s,
          quantity := q, purchasePrice := pd.purchasePrice } :: r.2.2)
    else processSizes ps pid pd c rest

/-- The outer `for (const [color, sizes] of Object.entries(item.quantities))`
loop (api.js line 220). -/
def processColors (ps : Store Product) (pid : String) (pd : Product) :
    List (String × List (String × Int)) → Store Product × Int × List ShipmentLine
  | [] => (ps, 0, [])
  | (c, szs) :: rest =>
    let r1 := processSizes ps pid pd c szs
    let r2 := processColors r1.1 pid pd rest
    (r2.1, r1.2.1 + r2.2.1, r1.2.2 ++ r2.2.2)

/-- One iteration of `for (const item of items)` (api.js lines 208-241).
A flagged-new item with no `productData` throws in JavaScript when `.id` is
read off `undefined`; an item whose document is absent and which carries no
payload throws the explicit not-found error of line 218. -/
def processItem (ps : Store Product) (item : InvoiceItem) :
    Except String (Store Product × Int × List ShipmentLine) :=
  match (if item.isNew then
      match item.productData with
      | none => Except.error "Cannot read properties of undefined (reading id)"
      | some p => Except.ok (setEntry ps p.id p)
    else Except.ok ps) with
  | .error e => .error e
  | .ok ps1 =>
    match (match getEntry ps1 item.productId with
           | some p => some p
           | none => item.productData) with
    | none => .error ("Product data for " ++ item.productId ++ " not found.")
    | some pd => .ok (processColors ps1 item.productId pd item.quantities)

/-- The whole item loop, threading the staged store and accumulating the
invoice total and the shipment item list. -/
def processItems (ps : Store Product) :
    List InvoiceItem → Except String (Store Product × Int × List ShipmentLine)
  | [] => .ok (ps, 0, [])
  | item :: rest =>
    match processItem ps item with
    | .error e => .error e
    | .ok r1 =>
      match processItems r1.1 rest with
      | .error e => .error e
      | .ok r2 => .ok (r2.1, r1.2.1 + r2.2.1, r1.2.2 ++ r2.2.2)

/-- The global hyphen-stripping `date.replace` call (api.js line 203). -/
def stripDashes (s : String) : String :=
  String.mk (s.data.filter (fun ch => ch ≠ '-'))

/-- The shipment id (api.js line 203); the time-based disambiguating suffix
`Date.now().toString().slice(-5)` is an input. -/
def mkShipmentId (date suffix : String) : String :=
  "SH" ++ stripDashes date ++ "-" ++ suffix

/-- `saveNewInvoice` (api.js lines 200-252): run the transaction; on success
the staged product updates and the shipment record are committed together, on
a throw the store is left untouched and the failure is returned. -/
def saveNewInvoice (st : DB) (inv : InvoiceData) (suffix : String) :
    DB × InvoiceResult :=
  let shipmentId := mkShipmentId inv.date suffix
  match processItems st.products inv.items with
  | .error e => (st, .failure e)
  | .ok r =>
    let sh : Shipment :=
      { id := shipmentId, supplierId := inv.supplierId, date := inv.date,
        shippingCost := inv.shippingCost, items := r.2.2, totalCost := r.2.1 }
    ({ st with products := r.1, shipments := setEntry st.shipments shipmentId sh },
      .success shipmentId)

/-! ## Bulk sync lemmas and claims C6, C7, C10 -/

theorem getEntry_upsertRecords {α : Type} (recs : List (SyncRecord α))
    (s : Store (SyncRecord α)) (k : String) :
    getEntry (upsertRecords s recs) k = (lastWithId recs k).or (getEntry s k) := by
  induction recs generalizing s with
  | nil => simp [upsertRecords, lastWithId]
  | cons r rest ih =>
    simp only [upsertRecords, lastWithId]
    rw [ih, Option.or_assoc]
    congr 1
    match htr : truthyId r with
    | none => simp [htr]
    | some i =>
      by_cases hik : i = k
      · rw [hik] at htr ⊢
        simp [htr, getEntry_setEntry_self]
      · have : ¬ ((some i : Option String) == some k) = true := by
          simp [hik]
        simp only [htr, this, if_neg, Bool.false_eq_true, not_false_eq_true, Option.none_or]
        exact getEntry_setEntry_ne s i k r (fun hh => hik (hh.symm))

theorem getEntry_deleteIds {α : Type} (ids : List String) (s : Store α) (k : String) :
    getEntry (deleteIds s ids) k = if k ∈ ids then none else getEntry s k := by
  induction ids generalizing s with
  | nil => simp [deleteIds]
  | cons i rest ih =>
    simp only [deleteIds]
    rw [ih, getEntry_deleteEntry]
    by_cases h1 : k ∈ rest
    · simp [h1]
    · by_cases h2 : k = i
      · simp [h1, h2]
      · simp [h1, h2]

theorem lastWithId_isSome_iff_any {α : Type} (recs : List (SyncRecord α)) (k : String) :
    (lastWithId recs k).isSome = true ↔
      recs.any (fun r => truthyId r == some k) = true := by
  induction recs with
  | nil => simp [lastWithId]
  | cons r rest ih =>
    simp only [lastWithId, List.any_cons]
    by_cases h : truthyId r == some k
    · simp [h, Option.or]
      cases lastWithId rest k <;> simp
    · simp only [h, if_neg, Bool.false_eq_true, not_false_eq_true, Bool.false_or]
      rw [← ih]
      cases lastWithId rest k <;> simp

/-- The pointwise effect of one collection's `saveData` batch: the document
surviving at a key is exactly the last incoming record carrying that id. -/
theorem sync_getEntry {α : Type} (s : Store (SyncRecord α))
    (recs : List (SyncRecord α)) (k : String) :
    getEntry (syncCollection s recs) k = lastWithId recs k := by
  unfold syncCollection
  rw [getEntry_deleteIds, getEntry_upsertRecords]
  by_cases hany : recs.any (fun r => truthyId r == some k) = true
  · have hnot : k ∉ remainingIds (storeKeys s) recs := by
      intro hmem
      rcases List.mem_filter.mp hmem with ⟨_, hp⟩
      rw [hany] at hp
      simp at hp
    rw [if_neg hnot]
    rcases Option.isSome_iff_exists.mp ((lastWithId_isSome_iff_any recs k).mpr hany)
      with ⟨r, hr⟩
    simp [hr, Option.or]
  · have hl : lastWithId recs k = none := by
      cases hlw : lastWithId recs k with
      | none => rfl
      | some r =>
        exact absurd ((lastWithId_isSome_iff_any recs k).mp (by simp [hlw])) hany
    rw [hl, Option.none_or]
    by_cases hk : k ∈ storeKeys s
    · have : k ∈ remainingIds (storeKeys s) recs := by
        apply List.mem_filter.mpr
        exact ⟨hk, by simp [hany]⟩
      simp [this]
    · have hnot : k ∉ remainingIds (storeKeys s) recs := by
        intro hmem
        exact hk (List.mem_filter.mp hmem).1
      rw [if_neg hnot]
      exact (getEntry_eq_none_iff s k).mpr hk

/-- C6: for every collection synced by `saveData`, the final durable state
holds, at each key, exactly the last incoming record carrying that id as its
truthy identifier — so every record with an identifier is upserted, every
authoritative id absent from the incoming id set is deleted, records without
an identifier cause no write, and the final id set is the incoming truthy id
set. -/
theorem saveData_sync_final_state {α : Type} (s : Store (SyncRecord α))
    (recs : List (SyncRecord α)) :
    ∀ k, getEntry (syncCollection s recs) k = lastWithId recs k ∧
      ((getEntry (syncCollection s recs) k).isSome = true ↔
        recs.any (fun r => truthyId r == some k) = true) := by
  intro k
  refine ⟨sync_getEntry s recs k, ?_⟩
  rw [sync_getEntry s recs k]
  exact lastWithId_isSome_iff_any recs k

/-- C7: `saveData`'s per-collection sync is idempotent — syncing the same
record list twice leaves, at every key, the same durable document as syncing
it once. -/
theorem saveData_sync_idempotent {α : Type} (s : Store (SyncRecord α))
    (recs : List (SyncRecord α)) :
    ∀ k, getEntry (syncCollection (syncCollection s recs) recs) k =
      getEntry (syncCollection s recs) k := by
  intro k
  rw [sync_getEntry, sync_getEntry]

/-- C10: the config document written by `saveData` never carries the sentinel
category `All`: the in-memory categories are filtered before persisting. -/
theorem saveData_config_no_All_category (categories : List String)
    (salaries : List (String × Int)) (salariesPaidStatus : List (String × Bool))
    (rentAmount : Int) (lastShiftReportTime : Option String) (cfg : Config) :
    "All" ∉ (saveDataConfig categories salaries salariesPaidStatus rentAmount
      lastShiftReportTime cfg).categories := by
  intro hmem
  simp only [saveDataConfig, savedCategories] at hmem
  rcases List.mem_filter.mp hmem with ⟨_, hp⟩
  simp at hp

/-! ## Variant quantity lemmas -/

theorem getQty_setProductQty_self (p : Product) (c s : String) (v : Int) :
    getQty (setProductQty p c s v) c s = v := by
  unfold getQty setProductQty
  simp [getEntry_setEntry_self]

theorem getQty_setProductQty_ne (p : Product) (c s c' s' : String) (v : Int)
    (h : c' ≠ c ∨ s' ≠ s) :
    getQty (setProductQty p c s v) c' s' = getQty p c' s' := by
  unfold getQty setProductQty
  by_cases hc : c' = c
  · rcases h with h | h
    · exact absurd hc h
    · subst hc
      simp only [getEntry_setEntry_self]
      rw [getEntry_setEntry_ne _ _ _ _ h]
      cases hpc : getEntry p.colors c' <;> simp [hpc]
  · simp only [getEntry_setEntry_ne _ _ _ _ hc]

/-! ## Claims C3 and C4: `addDefectiveItem` -/

/-- C3: a defect request whose quantity exceeds the current variant quantity
makes `addDefectiveItem` fail with the insufficient-stock error, leaving the
whole database — variant quantity and defects collection included —
untouched. -/
theorem addDefectiveItem_insufficient_stock (st : DB) (d : DefectData)
    (p : Product) (hp : getEntry st.products d.productId = some p)
    (hq : getQty p d.color d.size < d.quantity) :
    addDefectiveItem st d =
      (st, .failure ("Cannot mark " ++ toString d.quantity ++
        " as defective. Only " ++ toString (getQty p d.color d.size) ++
        " in stock.")) := by
  unfold addDefectiveItem
  rw [hp]
  simp [hq]

/-- C4: a defect request on an existing product with quantity at most the
current variant quantity succeeds: the variant quantity becomes the old
quantity minus the requested quantity, the defect record is committed under
its id, and no other defect record is touched. -/
theorem addDefectiveItem_success (st : DB) (d : DefectData) (p : Product)
    (hp : getEntry st.products d.productId = some p)
    (hq : d.quantity ≤ getQty p d.color d.size) :
    (addDefectiveItem st d).2 = .success ∧
    (∃ p2, getEntry (addDefectiveItem st d).1.products d.productId = some p2 ∧
      getQty p2 d.color d.size = getQty p d.color d.size - d.quantity) ∧
    getEntry (addDefectiveItem st d).1.defects d.id = some d ∧
    (∀ k, k ≠ d.id →
      getEntry (addDefectiveItem st d).1.defects k = getEntry st.defects k) := by
  have hlt : ¬ (getQty p d.color d.size < d.quantity) := not_lt.mpr hq
  have hred : addDefectiveItem st d =
      ({ st with
          products := setEntry st.products d.productId
            (setProductQty p d.color d.size (getQty p d.color d.size - d.quantity)),
          defects := setEntry st.defects d.id d }, .success) := by
    unfold addDefectiveItem
    rw [hp]
    simp [hlt]
  rw [hred]
  exact ⟨rfl,
    ⟨setProductQty p d.color d.size (getQty p d.color d.size - d.quantity),
      getEntry_setEntry_self _ _ _, getQty_setProductQty_self _ _ _ _⟩,
    getEntry_setEntry_self _ _ _, fun k hk => getEntry_setEntry_ne _ _ _ _ hk⟩

/-! ## Claim C8: `saveShift` -/

/-- Example fixtures used by the concrete witness theorems. -/
def exProduct : Product :=
  { id := "P1", name := "Shirt", purchasePrice := 50,
    colors := [("red", [("M", 5)])] }

def exConfig : Config :=
  { categories := ["All", "Tops"], salaries := [], salariesPaidStatus := [],
    rentAmount := 0, lastShiftReportTime := none }

def exDB : DB :=
  { products := [("P1", exProduct)], defects := [], shipments := [],
    shifts := [], config := exConfig }

def exShift : Shift :=
  { id := "SH1", startedAt := "2024-01-01T08:00", endedAt := "2024-01-01T16:00",
    endedBy := "admin" }

def exDefect3 : DefectData :=
  { id := "D1", productId := "P1", color := "red", size := "M", quantity := 3,
    reason := "torn", purchasePrice := 50, supplierId := "SUP1",
    shipmentDate := "2024-01-01" }

def exDefect7 : DefectData :=
  { exDefect3 with id := "D2", quantity := 7 }

/-- Witness for the C3 theorem: product `P1` holds 5 of variant (red, M) and
a defect of 7 is requested; the call fails with the insufficient-stock error
and the database is unchanged. -/
theorem addDefectiveItem_insufficient_stock_witness :
    getEntry exDB.products exDefect7.productId = some exProduct ∧
    getQty exProduct exDefect7.color exDefect7.size < exDefect7.quantity ∧
    addDefectiveItem exDB exDefect7 =
      (exDB, .failure ("Cannot mark " ++ toString exDefect7.quantity ++
        " as defective. Only " ++
        toString (getQty exProduct exDefect7.color exDefect7.size) ++
        " in stock.")) :=
  ⟨by decide, by decide,
    addDefectiveItem_insufficient_stock exDB exDefect7 exProduct
      (by decide) (by decide)⟩

/-- Witness for the C4 theorem: product `P1` holds 5 of variant (red, M) and
a defect of 3 is recorded; the call succeeds, the variant drops to 2 and the
defect record is committed. -/
theorem addDefectiveItem_success_witness :
    getEntry exDB.products exDefect3.productId = some exProduct ∧
    exDefect3.quantity ≤ getQty exProduct exDefect3.color exDefect3.size ∧
    ((addDefectiveItem exDB exDefect3).2 = .success ∧
     (∃ p2, getEntry (addDefectiveItem exDB exDefect3).1.products
         exDefect3.productId = some p2 ∧
       getQty p2 exDefect3.color exDefect3.size =
         getQty exProduct exDefect3.color exDefect3.size - exDefect3.quantity) ∧
     getEntry (addDefectiveItem exDB exDefect3).1.defects exDefect3.id =
       some exDefect3 ∧
     (∀ k, k ≠ exDefect3.id →
       getEntry (addDefectiveItem exDB exDefect3).1.defects k =
         getEntry exDB.defects k)) :=
  ⟨by decide, by decide,
    addDefectiveItem_success exDB exDefect3 exProduct (by decide) (by decide)⟩

/-- C8 counterexample: when the first `setDoc` round-trip of `saveShift`
succeeds and the second fails, the shift document is committed while the
`lastShiftReportTime` marker is left unchanged — neither "both written" nor
"neither written" holds, so the write pair is not atomic. -/
theorem saveShift_not_atomic_cex :
    ¬ ((getEntry (saveShift exDB exShift true false).1.shifts exShift.id =
          some exShift ∧
        (saveShift exDB exShift true false).1.config.lastShiftReportTime =
          some exShift.endedAt) ∨
       (getEntry (saveShift exDB exShift true false).1.shifts exShift.id =
          getEntry exDB.shifts exShift.id ∧
        (saveShift exDB exShift true false).1.config.lastShiftReportTime =
          exDB.config.lastShiftReportTime)) := by
  decide

/-- C8 amended: `saveShift` issues the two writes sequentially, not
atomically.  When both round-trips succeed, the shift record and the marker
are both written and the call succeeds; when the first write fails, nothing
is written; when only the second write fails, the shift document is already
committed while the marker is left unchanged — a partial write. -/
theorem saveShift_sequential_writes (st : DB) (sd : Shift) :
    ((saveShift st sd true true).1.shifts = setEntry st.shifts sd.id sd ∧
     (saveShift st sd true true).1.config.lastShiftReportTime = some sd.endedAt ∧
     (saveShift st sd true true).2 = .success) ∧
    (∀ ok2, (saveShift st sd false ok2).1 = st ∧
      (saveShift st sd false ok2).2 = .failure "write failed") ∧
    ((saveShift st sd true false).1.shifts = setEntry st.shifts sd.id sd ∧
     (saveShift st sd true false).1.config = st.config ∧
     (saveShift st sd true false).2 = .failure "write failed") := by
  exact ⟨⟨rfl, rfl, rfl⟩, fun ok2 => ⟨rfl, rfl⟩, rfl, rfl, rfl⟩

/-! ## Invoice processing lemmas

`costOfSizes` / `costOfQuantities` and `linesOfSizes` / `linesOfQuantities`
restate, directly over the nested quantity map, the cost accumulated and the
lines pushed by the loops of `saveNewInvoice`; the `processXxx_snd` lemmas
prove that the loop results coincide with them for every staged store. -/

def costOfSizes (p : Product) : List (String × Int) → Int
  | [] => 0
  | sq :: rest => (if 0 < sq.2 then sq.2 * p.purchasePrice else 0) + costOfSizes p rest

def costOfQuantities (p : Product) : List (String × List (String × Int)) → Int
  | [] => 0
  | e :: rest => costOfSizes p e.2 + costOfQuantities p rest

def linesOfSizes (pid : String) (p : Product) (c : String) :
    List (String × Int) → List ShipmentLine
  | [] => []
  | sq :: rest =>
    (if 0 < sq.2 then
      [{ productId := pid, productName := p.name, color := c, size := sq.1,
         quantity := sq.2, purchasePrice := p.purchasePrice }]
     else []) ++ linesOfSizes pid p c rest

def linesOfQuantities (pid : String) (p : Product) :
    List (String × List (String × Int)) → List ShipmentLine
  | [] => []
  | e :: rest => linesOfSizes pid p e.1 e.2 ++ linesOfQuantities pid p rest

/-- The total-cost formula of the spec (section 8): the sum over a flattened
item list of quantity times purchase price. -/
def sumLines (ls : List ShipmentLine) : Int :=
  (ls.map (fun l => l.quantity * l.purchasePrice)).sum

theorem sumLines_append (a b : List ShipmentLine) :
    sumLines (a ++ b) = sumLines a + sumLines b := by
  simp [sumLines]

theorem processSizes_snd (pid : String) (pd : Product) (c : String)
    (szs : List (String × Int)) :
    ∀ ps, (processSizes ps pid pd c szs).2 =
      (costOfSizes pd szs, linesOfSizes pid pd c szs) := by
  induction szs with
  | nil => intro ps ; simp [processSizes, costOfSizes, linesOfSizes]
  | cons sq rest ih =>
    intro ps
    rcases sq with ⟨s, q⟩
    by_cases hq : 0 < q
    · simp only [processSizes, if_pos hq, costOfSizes, linesOfSizes]
      rw [ih]
      simp [hq]
    · simp only [processSizes, if_neg hq, costOfSizes, linesOfSizes]
      rw [ih]
      simp [hq]

theorem processColors_snd (pid : String) (pd : Product)
    (qs : List (String × List (String × Int))) :
    ∀ ps, (processColors ps pid pd qs).2 =
      (costOfQuantities pd qs, linesOfQuantities pid pd qs) := by
  induction qs with
  | nil => intro ps ; simp [processColors, costOfQuantities, linesOfQuantities]
  | cons e rest ih =>
    intro ps
    rcases e with ⟨c, szs⟩
    simp only [processColors, costOfQuantities, linesOfQuantities]
    rw [processSizes_snd, ih]

theorem costOfSizes_eq_sumLines (pid : String) (p : Product) (c : String)
    (szs : List (String × Int)) :
    costOfSizes p szs = sumLines (linesOfSizes pid p c szs) := by
  induction szs with
  | nil => simp [costOfSizes, linesOfSizes, sumLines]
  | cons sq rest ih =>
    by_cases hq : 0 < sq.2
    · simp [costOfSizes, linesOfSizes, hq, sumLines_append, ih, sumLines]
    · simp [costOfSizes, linesOfSizes, hq, ih]

theorem costOfQuantities_eq_sumLines (pid : String) (p : Product)
    (qs : List (String × List (String × Int))) :
    costOfQuantities p qs = sumLines (linesOfQuantities pid p qs) := by
  induction qs with
  | nil => simp [costOfQuantities, linesOfQuantities, sumLines]
  | cons e rest ih =>
    simp [costOfQuantities, linesOfQuantities, sumLines_append, ih,
      costOfSizes_eq_sumLines pid p e.1 e.2]

theorem linesOfSizes_pos (pid : String) (p : Product) (c : String)
    (szs : List (String × Int)) :
    ∀ l ∈ linesOfSizes pid p c szs, 0 < l.quantity := by
  induction szs with
  | nil => simp [linesOfSizes]
  | cons sq rest ih =>
    intro l hl
    by_cases hq : 0 < sq.2
    · simp only [linesOfSizes, if_pos hq, List.singleton_append, List.mem_cons] at hl
      rcases hl with hl | hl
      · rw [hl] ; exact hq
      · exact ih l hl
    · simp only [linesOfSizes, if_neg hq, List.nil_append] at hl
      exact ih l hl

theorem linesOfQuantities_pos (pid : String) (p : Product)
    (qs : List (String × List (String × Int))) :
    ∀ l ∈ linesOfQuantities pid p qs, 0 < l.quantity := by
  induction qs with
  | nil => simp [linesOfQuantities]
  | cons e rest ih =>
    intro l hl
    simp only [linesOfQuantities, List.mem_append] at hl
    rcases hl with hl | hl
    · exact linesOfSizes_pos pid p e.1 e.2 l hl
    · exact ih l hl

/-- Inversion of a successful `processItem`: the staged store after the
optional flagged-new create, the product data snapshot actually used
(authoritative document first, payload fallback), and the fact that the
result is the quantity-loop result on them. -/
theorem processItem_ok_inv (ps : Store Product) (item : InvoiceItem)
    (r : Store Product × Int × List ShipmentLine)
    (h : processItem ps item = .ok r) :
    ∃ ps1 pd,
      ((item.isNew = true ∧ ∃ p, item.productData = some p ∧
          ps1 = setEntry ps p.id p) ∨
       (item.isNew = false ∧ ps1 = ps)) ∧
      (getEntry ps1 item.productId = some pd ∨
       (getEntry ps1 item.productId = none ∧ item.productData = some pd)) ∧
      r = processColors ps1 item.productId pd item.quantities := by
  unfold processItem at h
  split at h
  · exact absurd h (by simp)
  · rename_i ps1 hstage
    split at h
    · exact absurd h (by simp)
    · rename_i pd hpd
      simp only [Except.ok.injEq] at h
      refine ⟨ps1, pd, ?_, ?_, h.symm⟩
      · by_cases hn : item.isNew = true
        · rw [if_pos hn] at hstage
          cases hd : item.productData with
          | none =>
            rw [hd] at hstage
            exact absurd hstage (by simp)
          | some p =>
            rw [hd] at hstage
            simp only [Except.ok.injEq] at hstage
            exact Or.inl ⟨hn, p, rfl, hstage.symm⟩
        · rw [if_neg hn] at hstage
          simp only [Except.ok.injEq] at hstage
          exact Or.inr ⟨Bool.not_eq_true item.isNew ▸ hn, hstage.symm⟩
      · cases hg : getEntry ps1 item.productId with
        | none =>
          rw [hg] at hpd
          exact Or.inr ⟨rfl, hpd⟩
        | some p0 =>
          rw [hg] at hpd
          simp only [Option.some.injEq] at hpd
          refine Or.inl ?_
          rw [← hpd]

theorem processItem_ok_snd (ps : Store Product) (item : InvoiceItem)
    (r : Store Product × Int × List ShipmentLine)
    (h : processItem ps item = .ok r) :
    r.2.1 = sumLines r.2.2 ∧ ∀ l ∈ r.2.2, 0 < l.quantity := by
  rcases processItem_ok_inv ps item r h with ⟨ps1, pd, _, _, hr⟩
  rw [hr, processColors_snd]
  constructor
  · exact costOfQuantities_eq_sumLines item.productId pd item.quantities
  · exact linesOfQuantities_pos item.productId pd item.quantities

theorem processItems_ok_snd (items : List InvoiceItem) :
    ∀ ps r, processItems ps items = .ok r →
      r.2.1 = sumLines r.2.2 ∧ ∀ l ∈ r.2.2, 0 < l.quantity := by
  induction items with
  | nil =>
    intro ps r h
    simp only [processItems, Except.ok.injEq] at h
    rw [← h]
    exact ⟨by simp [sumLines], by simp⟩
  | cons item rest ih =>
    intro ps r h
    unfold processItems at h
    split at h
    · exact absurd h (by simp)
    · rename_i r1 h1
      split at h
      · exact absurd h (by simp)
      · rename_i r2 h2
        simp only [Except.ok.injEq] at h
        rcases processItem_ok_snd ps item r1 h1 with ⟨hc1, hp1⟩
        rcases ih r1.1 r2 h2 with ⟨hc2, hp2⟩
        rw [← h]
        refine ⟨by simp [sumLines_append, hc1, hc2], ?_⟩
        intro l hl
        rcases List.mem_append.mp hl with hl | hl
        · exact hp1 l hl
        · exact hp2 l hl

/-! ## Claim C1: shipment total cost -/

/-- C1: whenever `saveNewInvoice` succeeds, the shipment record written under
the returned id has `totalCost` equal to the sum over its flattened item list
of quantity times purchase price, and every flattened line has a positive
quantity (only positive `(color, size)` entries contribute). -/
theorem saveNewInvoice_totalCost (st : DB) (inv : InvoiceData)
    (suffix sid : String)
    (h : (saveNewInvoice st inv suffix).2 = .success sid) :
    ∃ sh, getEntry (saveNewInvoice st inv suffix).1.shipments sid = some sh ∧
      sh.totalCost = sumLines sh.items ∧ ∀ l ∈ sh.items, 0 < l.quantity := by
  unfold saveNewInvoice at h ⊢
  cases hp : processItems st.products inv.items with
  | error e =>
    rw [hp] at h
    simp at h
  | ok r =>
    rw [hp] at h
    have hsid : mkShipmentId inv.date suffix = sid := by
      simpa using h
    rcases processItems_ok_snd inv.items st.products r hp with ⟨hc, hpos⟩
    refine ⟨⟨mkShipmentId inv.date suffix, inv.supplierId, inv.date,
      inv.shippingCost, r.2.2, r.2.1⟩, ?_, hc, hpos⟩
    show getEntry (setEntry st.shipments (mkShipmentId inv.date suffix) _) sid = some _
    rw [← hsid]
    exact getEntry_setEntry_self _ _ _

/-! ## Keys untouched by invoice processing -/

theorem getEntry_storeSetQty_ne (ps : Store Product) (pid c s : String)
    (v : Int) (k : String) (hk : k ≠ pid) :
    getEntry (storeSetQty ps pid c s v) k = getEntry ps k := by
  unfold storeSetQty
  cases getEntry ps pid with
  | some p => exact getEntry_setEntry_ne _ _ _ _ hk
  | none => exact getEntry_setEntry_ne _ _ _ _ hk

theorem processSizes_getEntry_ne (pid : String) (pd : Product) (c : String)
    (szs : List (String × Int)) (k : String) (hk : k ≠ pid) :
    ∀ ps, getEntry (processSizes ps pid pd c szs).1 k = getEntry ps k := by
  induction szs with
  | nil => intro ps ; simp [processSizes]
  | cons sq rest ih =>
    intro ps
    rcases sq with ⟨s, q⟩
    by_cases hq : 0 < q
    · simp only [processSizes, if_pos hq]
      rw [ih, getEntry_storeSetQty_ne _ _ _ _ _ _ hk]
    · simp only [processSizes, if_neg hq]
      exact ih ps

theorem processColors_getEntry_ne (pid : String) (pd : Product)
    (qs : List (String × List (String × Int))) (k : String) (hk : k ≠ pid) :
    ∀ ps, getEntry (processColors ps pid pd qs).1 k = getEntry ps k := by
  induction qs with
  | nil => intro ps ; simp [processColors]
  | cons e rest ih =>
    intro ps
    rcases e with ⟨c, szs⟩
    simp only [processColors]
    rw [ih, processSizes_getEntry_ne _ _ _ _ _ hk]

theorem processItem_getEntry_ne (ps : Store Product) (item : InvoiceItem)
    (r : Store Product × Int × List ShipmentLine) (k : String)
    (h : processItem ps item = .ok r)
    (hk : item.productId ≠ k)
    (hnew : ∀ p, item.productData = some p → item.isNew = true → p.id ≠ k) :
    getEntry r.1 k = getEntry ps k := by
  rcases processItem_ok_inv ps item r h with ⟨ps1, pd, hstage, _, hr⟩
  have h2 : getEntry ps1 k = getEntry ps k := by
    rcases hstage with ⟨hn, p, hpd, hps1⟩ | ⟨_, hps1⟩
    · rw [hps1]
      exact getEntry_setEntry_ne _ _ _ _ (Ne.symm (hnew p hpd hn))
    · rw [hps1]
  rw [hr]
  rw [processColors_getEntry_ne _ _ _ _ (Ne.symm hk)]
  exact h2

theorem processItems_getEntry_untouched (items : List InvoiceItem) (k : String)
    (h1 : ∀ it ∈ items, it.productId ≠ k)
    (h2 : ∀ it ∈ items, ∀ p, it.productData = some p → it.isNew = true →
      p.id ≠ k) :
    ∀ ps r, processItems ps items = .ok r → getEntry r.1 k = getEntry ps k := by
  induction items with
  | nil =>
    intro ps r h
    simp only [processItems, Except.ok.injEq] at h
    rw [← h]
  | cons item tl ih =>
    intro ps r h
    unfold processItems at h
    split at h
    · exact absurd h (by simp)
    · rename_i r1 hr1
      split at h
      · exact absurd h (by simp)
      · rename_i r2 hr2
        simp only [Except.ok.injEq] at h
        have e1 : getEntry r1.1 k = getEntry ps k :=
          processItem_getEntry_ne ps item r1 k hr1
            (h1 item (List.mem_cons_self _ _))
            (h2 item (List.mem_cons_self _ _))
        have e2 : getEntry r2.1 k = getEntry r1.1 k :=
          ih (fun it hit => h1 it (List.mem_cons_of_mem _ hit))
            (fun it hit => h2 it (List.mem_cons_of_mem _ hit)) r1.1 r2 hr2
        rw [← h]
        exact e2.trans e1

/-! ## Error propagation through the item loop -/

theorem processItems_cons_error (ps : Store Product) (item : InvoiceItem)
    (rest : List InvoiceItem) (e : String)
    (h : processItem ps item = .error e) :
    processItems ps (item :: rest) = .error e := by
  unfold processItems
  rw [h]

theorem processItems_append_error (pre rest : List InvoiceItem) :
    ∀ ps e, processItems ps pre = .error e →
      processItems ps (pre ++ rest) = .error e := by
  induction pre with
  | nil =>
    intro ps e h
    simp [processItems] at h
  | cons item tl ih =>
    intro ps e h
    unfold processItems at h
    rw [List.cons_append]
    unfold processItems
    split at h
    · exact h
    · rename_i r1 h1
      split at h
      · rename_i e2 h2
        rw [ih r1.1 e2 h2]
        exact h
      · exact absurd h (by simp)

theorem processItems_append_ok_error (pre rest : List InvoiceItem) :
    ∀ ps r1 e, processItems ps pre = .ok r1 →
      processItems r1.1 rest = .error e →
      processItems ps (pre ++ rest) = .error e := by
  induction pre with
  | nil =>
    intro ps r1 e h1 h2
    simp only [processItems, Except.ok.injEq] at h1
    rw [List.nil_append]
    rw [← h1] at h2
    exact h2
  | cons item tl ih =>
    intro ps r1 e h1 h2
    unfold processItems at h1
    rw [List.cons_append]
    unfold processItems
    split at h1
    · exact absurd h1 (by simp)
    · rename_i ri hi
      split at h1
      · exact absurd h1 (by simp)
      · rename_i r2 hr2
        simp only [Except.ok.injEq] at h1
        have hr11 : r1.1 = r2.1 := by rw [← h1]
        have h2' : processItems r2.1 rest = .error e := by
          rw [← hr11]
          exact h2
        rw [ih ri.1 r2 e hr2 h2']

theorem processItem_missing_data_error (ps : Store Product) (it : InvoiceItem)
    (hnodata : it.productData = none)
    (habsent : getEntry ps it.productId = none) :
    processItem ps it =
      .error (if it.isNew then "Cannot read properties of undefined (reading id)"
              else "Product data for " ++ it.productId ++ " not found.") := by
  cases hn : it.isNew with
  | true => simp [processItem, hn, hnodata]
  | false => simp [processItem, hn, hnodata, habsent]

/-! ## Claim C5: missing product data aborts the whole invoice -/

/-- C5: an invoice containing a line item that carries no `productData`
payload and addresses a product document absent from the store (and that no
other line of the invoice creates) makes `saveNewInvoice` abort as a whole:
the database is returned unchanged — no partial stock increase, no shipment
record — and the result is a failure, carrying the product-not-found message
when the offending item is reached (it is flagged-new items without payload
that fail earlier, on reading `.id` of `undefined`). -/
theorem saveNewInvoice_missing_product_aborts (st : DB) (inv : InvoiceData)
    (suffix : String) (pre post : List InvoiceItem) (it : InvoiceItem)
    (hsplit : inv.items = pre ++ it :: post)
    (hnodata : it.productData = none)
    (habsent : getEntry st.products it.productId = none)
    (hpre1 : ∀ it2 ∈ pre, it2.productId ≠ it.productId)
    (hpre2 : ∀ it2 ∈ pre, ∀ p, it2.productData = some p → it2.isNew = true →
      p.id ≠ it.productId) :
    (saveNewInvoice st inv suffix).1 = st ∧
    ∃ msg, (saveNewInvoice st inv suffix).2 = .failure msg ∧
      (it.isNew = false →
        ∀ r, processItems st.products pre = .ok r →
          msg = "Product data for " ++ it.productId ++ " not found.") := by
  have herr : ∃ msg, processItems st.products inv.items = .error msg ∧
      (it.isNew = false →
        ∀ r, processItems st.products pre = .ok r →
          msg = "Product data for " ++ it.productId ++ " not found.") := by
    rw [hsplit]
    cases hpp : processItems st.products pre with
    | error e =>
      refine ⟨e, processItems_append_error pre (it :: post) st.products e hpp, ?_⟩
      intro _ r' hr'
      exact absurd hr' (by simp)
    | ok r =>
      have habs2 : getEntry r.1 it.productId = none := by
        rw [processItems_getEntry_untouched pre it.productId hpre1 hpre2
          st.products r hpp]
        exact habsent
      have hof := processItem_missing_data_error r.1 it hnodata habs2
      refine ⟨_, processItems_append_ok_error pre (it :: post) st.products r _ hpp
        (processItems_cons_error r.1 it post _ hof), ?_⟩
      intro hn _ _
      simp [hn]
  rcases herr with ⟨msg, hmsg, hcond⟩
  unfold saveNewInvoice
  rw [hmsg]
  exact ⟨rfl, msg, rfl, hcond⟩

/-! ## Concrete invoice fixtures and witnesses for C1 and C5 -/

def exInvoiceItem : InvoiceItem :=
  { productId := "P1", isNew := false, productData := none,
    quantities := [("red", [("M", 5), ("S", 0)])] }

def exInvoice : InvoiceData :=
  { supplierId := "SUP1", date := "2024-01-02", shippingCost := 7,
    items := [exInvoiceItem] }

def exBadItem : InvoiceItem :=
  { productId := "MISSING", isNew := false, productData := none,
    quantities := [("red", [("M", 2)])] }

def exBadInvoice : InvoiceData :=
  { supplierId := "SUP1", date := "2024-01-03", shippingCost := 0,
    items := [exBadItem] }

/-- Witness for the C1 theorem: a concrete invoice against `exDB` succeeds
and its committed shipment satisfies the total-cost equation. -/
theorem saveNewInvoice_totalCost_witness :
    (saveNewInvoice exDB exInvoice "12345").2 = .success "SH20240102-12345" ∧
    ∃ sh, getEntry (saveNewInvoice exDB exInvoice "12345").1.shipments
        "SH20240102-12345" = some sh ∧
      sh.totalCost = sumLines sh.items ∧ ∀ l ∈ sh.items, 0 < l.quantity :=
  ⟨by decide,
    saveNewInvoice_totalCost exDB exInvoice "12345" "SH20240102-12345" (by decide)⟩

/-- Witness for the C5 theorem: an invoice whose only line addresses the
absent product `MISSING` with no payload aborts with the not-found failure
and leaves the concrete database unchanged. -/
theorem saveNewInvoice_missing_product_aborts_witness :
    exBadInvoice.items = [] ++ exBadItem :: [] ∧
    exBadItem.productData = none ∧
    getEntry exDB.products exBadItem.productId = none ∧
    ((saveNewInvoice exDB exBadInvoice "54321").1 = exDB ∧
     ∃ msg, (saveNewInvoice exDB exBadInvoice "54321").2 = .failure msg ∧
       (exBadItem.isNew = false →
         ∀ r, processItems exDB.products [] = .ok r →
           msg = "Product data for " ++ exBadItem.productId ++ " not found.")) :=
  ⟨by decide, by decide, by decide,
    saveNewInvoice_missing_product_aborts exDB exBadInvoice "54321" [] [] exBadItem
      (by decide) (by decide) (by decide) (by simp) (by simp)⟩

/-! ## Claim C2: no operation writes a negative quantity -/

/-- Every per-variant quantity of the product is non-negative. -/
def nonNegProduct (p : Product) : Prop :=
  ∀ e ∈ p.colors, ∀ sq ∈ e.2, 0 ≤ sq.2

/-- Every product in the collection has only non-negative quantities. -/
def nonNegStore (ps : Store Product) : Prop :=
  ∀ e ∈ ps, nonNegProduct e.2

instance (p : Product) : Decidable (nonNegProduct p) := by
  unfold nonNegProduct
  infer_instance

instance (ps : Store Product) : Decidable (nonNegStore ps) := by
  unfold nonNegStore
  infer_instance

theorem getQty_nonneg (p : Product) (hp : nonNegProduct p) (c s : String) :
    0 ≤ getQty p c s := by
  unfold getQty
  cases hc : getEntry p.colors c with
  | none => simp
  | some szs =>
    dsimp only
    cases hs : getEntry szs s with
    | none => simp [hs]
    | some q =>
      exact hp (c, szs) (getEntry_mem _ _ _ hc) (s, q) (getEntry_mem _ _ _ hs)

theorem nonNegProduct_setProductQty (p : Product) (c s : String) (v : Int)
    (hp : nonNegProduct p) (hv : 0 ≤ v) :
    nonNegProduct (setProductQty p c s v) := by
  have hszs0 : ∀ sq ∈ (getEntry p.colors c).getD [], 0 ≤ sq.2 := by
    cases hc : getEntry p.colors c with
    | none => simp
    | some szs =>
      intro sq hsq
      exact hp (c, szs) (getEntry_mem _ _ _ hc) sq hsq
  have hinner : ∀ sq ∈ setEntry ((getEntry p.colors c).getD []) s v, 0 ≤ sq.2 :=
    setEntry_forall_values (fun q : Int => 0 ≤ q) _ s v hszs0 hv
  have houter : ∀ e ∈ p.colors, ∀ sq ∈ e.2, 0 ≤ sq.2 := hp
  exact setEntry_forall_values
    (fun szs : List (String × Int) => ∀ sq ∈ szs, 0 ≤ sq.2)
    p.colors c (setEntry ((getEntry p.colors c).getD []) s v) houter hinner

theorem nonNegStore_setEntry (ps : Store Product) (k : String) (p : Product)
    (hps : nonNegStore ps) (hp : nonNegProduct p) :
    nonNegStore (setEntry ps k p) :=
  setEntry_forall_values nonNegProduct ps k p hps hp

theorem nonNegProduct_productFromQtyUpdate (c s : String) (v : Int)
    (hv : 0 ≤ v) : nonNegProduct (productFromQtyUpdate c s v) := by
  intro e he sq hsq
  simp only [productFromQtyUpdate, List.mem_singleton] at he
  rw [he] at hsq
  simp only [List.mem_singleton] at hsq
  rw [hsq]
  exact hv

theorem nonNegStore_storeSetQty (ps : Store Product) (pid c s : String)
    (v : Int) (hps : nonNegStore ps) (hv : 0 ≤ v) :
    nonNegStore (storeSetQty ps pid c s v) := by
  unfold storeSetQty
  cases hg : getEntry ps pid with
  | some p =>
    have hp : nonNegProduct p := hps (pid, p) (getEntry_mem _ _ _ hg)
    exact nonNegStore_setEntry _ _ _ hps (nonNegProduct_setProductQty p c s v hp hv)
  | none =>
    exact nonNegStore_setEntry _ _ _ hps (nonNegProduct_productFromQtyUpdate c s v hv)

theorem nonNegStore_processSizes (pid : String) (pd : Product) (c : String)
    (hpd : nonNegProduct pd) (szs : List (String × Int)) :
    ∀ ps, nonNegStore ps → nonNegStore (processSizes ps pid pd c szs).1 := by
  induction szs with
  | nil =>
    intro ps h
    simpa [processSizes] using h
  | cons sq rest ih =>
    intro ps h
    rcases sq with ⟨s, q⟩
    by_cases hq : 0 < q
    · simp only [processSizes, if_pos hq]
      refine ih _ (nonNegStore_storeSetQty ps pid c s _ h ?_)
      have := getQty_nonneg pd hpd c s
      omega
    · simp only [processSizes, if_neg hq]
      exact ih ps h

theorem nonNegStore_processColors (pid : String) (pd : Product)
    (hpd : nonNegProduct pd) (qs : List (String × List (String × Int))) :
    ∀ ps, nonNegStore ps → nonNegStore (processColors ps pid pd qs).1 := by
  induction qs with
  | nil =>
    intro ps h
    simpa [processColors] using h
  | cons e rest ih =>
    intro ps h
    rcases e with ⟨c, szs⟩
    simp only [processColors]
    exact ih _ (nonNegStore_processSizes pid pd c hpd szs ps h)

theorem nonNegStore_processItem (ps : Store Product) (item : InvoiceItem)
    (r : Store Product × Int × List ShipmentLine)
    (h : processItem ps item = .ok r)
    (hps : nonNegStore ps)
    (hpayload : ∀ p, item.productData = some p → nonNegProduct p) :
    nonNegStore r.1 := by
  rcases processItem_ok_inv ps item r h with ⟨ps1, pd, hstage, hpd, hr⟩
  have hps1 : nonNegStore ps1 := by
    rcases hstage with ⟨_, p, hp, hps1⟩ | ⟨_, hps1⟩
    · rw [hps1]
      exact nonNegStore_setEntry _ _ _ hps (hpayload p hp)
    · rw [hps1]
      exact hps
  have hpdn : nonNegProduct pd := by
    rcases hpd with hg | ⟨_, hp⟩
    · exact hps1 (item.productId, pd) (getEntry_mem _ _ _ hg)
    · exact hpayload pd hp
  rw [hr]
  exact nonNegStore_processColors _ _ hpdn item.quantities ps1 hps1

theorem nonNegStore_processItems (items : List InvoiceItem)
    (hpayload : ∀ it ∈ items, ∀ p, it.productData = some p → nonNegProduct p) :
    ∀ ps r, processItems ps items = .ok r → nonNegStore ps →
      nonNegStore r.1 := by
  induction items with
  | nil =>
    intro ps r h hps
    simp only [processItems, Except.ok.injEq] at h
    rw [← h]
    exact hps
  | cons item tl ih =>
    intro ps r h hps
    unfold processItems at h
    split at h
    · exact absurd h (by simp)
    · rename_i r1 h1
      split at h
      · exact absurd h (by simp)
      · rename_i r2 h2
        simp only [Except.ok.injEq] at h
        have n1 := nonNegStore_processItem ps item r1 h1 hps
          (hpayload item (List.mem_cons_self _ _))
        have n2 := ih (fun it hit => hpayload it (List.mem_cons_of_mem _ hit))
          r1.1 r2 h2 n1
        rw [← h]
        exact n2

/-- C2: starting from a products collection whose per-variant quantities are
all non-negative (and invoice payloads likewise), both core operations —
recording a defect and committing an invoice — leave every variant quantity
of every product non-negative; no negative quantity is ever written. -/
theorem core_operations_preserve_nonneg (st : DB) (d : DefectData)
    (inv : InvoiceData) (suffix : String)
    (h1 : nonNegStore st.products)
    (h2 : ∀ it ∈ inv.items, ∀ p, it.productData = some p → nonNegProduct p) :
    nonNegStore (addDefectiveItem st d).1.products ∧
    nonNegStore (saveNewInvoice st inv suffix).1.products := by
  constructor
  · cases hg : getEntry st.products d.productId with
    | none =>
      have hred : (addDefectiveItem st d).1 = st := by
        unfold addDefectiveItem
        rw [hg]
      rw [hred]
      exact h1
    | some p =>
      by_cases hlt : getQty p d.color d.size < d.quantity
      · have hred : (addDefectiveItem st d).1 = st := by
          unfold addDefectiveItem
          rw [hg]
          simp [hlt]
        rw [hred]
        exact h1
      · have hred : (addDefectiveItem st d).1.products =
            setEntry st.products d.productId
              (setProductQty p d.color d.size
                (getQty p d.color d.size - d.quantity)) := by
          unfold addDefectiveItem
          rw [hg]
          simp [hlt]
        rw [hred]
        have hp : nonNegProduct p := h1 (d.productId, p) (getEntry_mem _ _ _ hg)
        refine nonNegStore_setEntry _ _ _ h1
          (nonNegProduct_setProductQty _ _ _ _ hp ?_)
        omega
  · cases hp : processItems st.products inv.items with
    | error e =>
      have hred : (saveNewInvoice st inv suffix).1 = st := by
        unfold saveNewInvoice
        rw [hp]
      rw [hred]
      exact h1
    | ok r =>
      have hred : (saveNewInvoice st inv suffix).1.products = r.1 := by
        unfold saveNewInvoice
        rw [hp]
      rw [hred]
      exact nonNegStore_processItems inv.items h2 st.products r hp h1

/-- Witness for the C2 theorem on concrete data: the example database is
non-negative, and both the defect recording and the invoice commit keep it
non-negative. -/
theorem core_operations_preserve_nonneg_witness :
    nonNegStore exDB.products ∧
    (∀ it ∈ exInvoice.items, ∀ p, it.productData = some p → nonNegProduct p) ∧
    (nonNegStore (addDefectiveItem exDB exDefect3).1.products ∧
     nonNegStore (saveNewInvoice exDB exInvoice "12345").1.products) :=
  ⟨by decide,
    by
      intro it hit p hp
      simp only [exInvoice, List.mem_singleton] at hit
      rw [hit] at hp
      exact absurd hp (by simp [exInvoiceItem]),
    core_operations_preserve_nonneg exDB exDefect3 exInvoice "12345" (by decide)
      (by
        intro it hit p hp
        simp only [exInvoice, List.mem_singleton] at hit
        rw [hit] at hp
        exact absurd hp (by simp [exInvoiceItem]))⟩

/-! ## Claim C9: payload fallback for absent product documents -/

/-- The variant quantity visible in the collection for the addressed document
(0 when the document is absent). -/
def getQtyStore (ps : Store Product) (pid c s : String) : Int :=
  match getEntry ps pid with
  | some p => getQty p c s
  | none => 0

/-- The nested quantity map has object semantics: color keys are distinct and
size keys are distinct within each color, as `Object.entries` guarantees. -/
def nodupQuantities (qs : List (String × List (String × Int))) : Prop :=
  (qs.map (fun e => e.1)).Nodup ∧ ∀ e ∈ qs, (e.2.map (fun sq => sq.1)).Nodup

instance (qs : List (String × List (String × Int))) :
    Decidable (nodupQuantities qs) := by
  unfold nodupQuantities
  infer_instance

theorem getQty_productFromQtyUpdate_self (c s : String) (v : Int) :
    getQty (productFromQtyUpdate c s v) c s = v := by
  simp [getQty, productFromQtyUpdate, getEntry]

theorem getQtyStore_storeSetQty_self (ps : Store Product) (pid c s : String)
    (v : Int) : getQtyStore (storeSetQty ps pid c s v) pid c s = v := by
  unfold getQtyStore storeSetQty
  cases getEntry ps pid with
  | some p =>
    rw [getEntry_setEntry_self]
    exact getQty_setProductQty_self p c s v
  | none =>
    rw [getEntry_setEntry_self]
    exact getQty_productFromQtyUpdate_self c s v

theorem getQty_productFromQtyUpdate_ne (c s c0 s0 : String) (v : Int)
    (h : c0 ≠ c ∨ s0 ≠ s) :
    getQty (productFromQtyUpdate c s v) c0 s0 = 0 := by
  by_cases hc : c0 = c
  · rcases h with h | h
    · exact absurd hc h
    · subst hc
      have hss : ¬ s = s0 := fun hh => h hh.symm
      simp [getQty, productFromQtyUpdate, getEntry, hss]
  · have hcc : ¬ c = c0 := fun hh => hc hh.symm
    simp [getQty, productFromQtyUpdate, getEntry, hcc]

theorem getQtyStore_storeSetQty_ne (ps : Store Product) (pid c s c0 s0 : String)
    (v : Int) (h : c0 ≠ c ∨ s0 ≠ s) :
    getQtyStore (storeSetQty ps pid c s v) pid c0 s0 =
      getQtyStore ps pid c0 s0 := by
  unfold getQtyStore storeSetQty
  cases getEntry ps pid with
  | some p =>
    rw [getEntry_setEntry_self]
    exact getQty_setProductQty_ne p c s c0 s0 v h
  | none =>
    rw [getEntry_setEntry_self]
    exact getQty_productFromQtyUpdate_ne c s c0 s0 v h

theorem processSizes_getQtyStore_ne (pid : String) (pd : Product) (c : String)
    (szs : List (String × Int)) (c0 s0 : String)
    (h : c0 ≠ c ∨ s0 ∉ szs.map (fun sq => sq.1)) :
    ∀ ps, getQtyStore (processSizes ps pid pd c szs).1 pid c0 s0 =
      getQtyStore ps pid c0 s0 := by
  induction szs with
  | nil => intro ps ; simp [processSizes]
  | cons sq rest ih =>
    intro ps
    rcases sq with ⟨s, q⟩
    have hrest : c0 ≠ c ∨ s0 ∉ rest.map (fun sq => sq.1) := by
      rcases h with h | h
      · exact Or.inl h
      · refine Or.inr (fun hmem => h ?_)
        simp only [List.map_cons, List.mem_cons]
        exact Or.inr hmem
    have hvar : c0 ≠ c ∨ s0 ≠ s := by
      rcases h with h | h
      · exact Or.inl h
      · refine Or.inr (fun hmem => h ?_)
        simp only [List.map_cons, List.mem_cons]
        exact Or.inl hmem
    by_cases hq : 0 < q
    · simp only [processSizes, if_pos hq]
      rw [ih hrest, getQtyStore_storeSetQty_ne _ _ _ _ _ _ _ hvar]
    · simp only [processSizes, if_neg hq]
      exact ih hrest ps

theorem processSizes_getQtyStore_write (pid : String) (pd : Product)
    (c : String) (szs : List (String × Int))
    (hnd : (szs.map (fun sq => sq.1)).Nodup) :
    ∀ ps, ∀ sq ∈ szs, 0 < sq.2 →
      getQtyStore (processSizes ps pid pd c szs).1 pid c sq.1 =
        getQty pd c sq.1 + sq.2 := by
  induction szs with
  | nil =>
    intro ps sq h
    simp at h
  | cons sq0 rest ih =>
    intro ps sq hmem hpos
    rcases sq0 with ⟨s, q⟩
    have hnd' : (s :: rest.map (fun sq => sq.1)).Nodup := by simpa using hnd
    have hnds := List.nodup_cons.mp hnd'
    rcases List.mem_cons.mp hmem with heq | hmem2
    · subst heq
      dsimp only
      simp only [processSizes, if_pos hpos]
      rw [processSizes_getQtyStore_ne pid pd c rest c s (Or.inr hnds.1)]
      exact getQtyStore_storeSetQty_self ps pid c s _
    · by_cases hq : 0 < q
      · simp only [processSizes, if_pos hq]
        exact ih hnds.2 _ sq hmem2 hpos
      · simp only [processSizes, if_neg hq]
        exact ih hnds.2 ps sq hmem2 hpos

theorem processColors_getQtyStore_ne (pid : String) (pd : Product)
    (qs : List (String × List (String × Int))) (c0 s0 : String)
    (h : c0 ∉ qs.map (fun e => e.1)) :
    ∀ ps, getQtyStore (processColors ps pid pd qs).1 pid c0 s0 =
      getQtyStore ps pid c0 s0 := by
  induction qs with
  | nil => intro ps ; simp [processColors]
  | cons e rest ih =>
    intro ps
    rcases e with ⟨c, szs⟩
    have h' : ¬ (c0 = c ∨ c0 ∈ rest.map (fun e => e.1)) := by
      intro hh
      exact h (by simpa using hh)
    rcases not_or.mp h' with ⟨hc, hrest⟩
    simp only [processColors]
    rw [ih hrest, processSizes_getQtyStore_ne pid pd c szs c0 s0 (Or.inl hc)]

theorem processColors_getQtyStore_write (pid : String) (pd : Product)
    (qs : List (String × List (String × Int)))
    (hnd1 : (qs.map (fun e => e.1)).Nodup)
    (hnd2 : ∀ e ∈ qs, (e.2.map (fun sq => sq.1)).Nodup) :
    ∀ ps, ∀ e ∈ qs, ∀ sq ∈ e.2, 0 < sq.2 →
      getQtyStore (processColors ps pid pd qs).1 pid e.1 sq.1 =
        getQty pd e.1 sq.1 + sq.2 := by
  induction qs with
  | nil =>
    intro ps e he
    simp at he
  | cons e0 rest ih =>
    intro ps e hmem sq hsq hpos
    rcases e0 with ⟨c, szs⟩
    have hnd1' : (c :: rest.map (fun e => e.1)).Nodup := by simpa using hnd1
    have hnds := List.nodup_cons.mp hnd1'
    rcases List.mem_cons.mp hmem with heq | hmem2
    · subst heq
      simp only [processColors]
      rw [processColors_getQtyStore_ne pid pd rest c sq.1 hnds.1]
      exact processSizes_getQtyStore_write pid pd c szs
        (hnd2 (c, szs) (List.mem_cons_self _ _)) ps sq hsq hpos
    · simp only [processColors]
      exact ih hnds.2 (fun x hx => hnd2 x (List.mem_cons_of_mem _ hx)) _
        e hmem2 sq hsq hpos

/-- C9: an invoice line item whose product document is absent from the store
but which carries a `productData` payload — whether or not it is flagged new —
does not abort `saveNewInvoice`'s item loop: the payload's purchase price and
name feed the accumulated invoice cost and the pushed shipment lines, and for
every positive `(color, size, quantity)` entry the new stock written is the
payload's current quantity plus the received quantity. -/
theorem saveNewInvoice_payload_fallback (ps : Store Product)
    (item : InvoiceItem) (p : Product)
    (habsent : getEntry ps item.productId = none)
    (hdata : item.productData = some p)
    (hnd : nodupQuantities item.quantities) :
    ∃ r, processItem ps item = Except.ok r ∧
      r.2.1 = costOfQuantities p item.quantities ∧
      r.2.2 = linesOfQuantities item.productId p item.quantities ∧
      ∀ e ∈ item.quantities, ∀ sq ∈ e.2, 0 < sq.2 →
        getQtyStore r.1 item.productId e.1 sq.1 =
          getQty p e.1 sq.1 + sq.2 := by
  have hfinish : ∀ base : Store Product,
      processItem ps item =
        Except.ok (processColors base item.productId p item.quantities) →
      ∃ r, processItem ps item = Except.ok r ∧
        r.2.1 = costOfQuantities p item.quantities ∧
        r.2.2 = linesOfQuantities item.productId p item.quantities ∧
        ∀ e ∈ item.quantities, ∀ sq ∈ e.2, 0 < sq.2 →
          getQtyStore r.1 item.productId e.1 sq.1 =
            getQty p e.1 sq.1 + sq.2 := by
    intro base hres
    refine ⟨processColors base item.productId p item.quantities, hres, ?_, ?_, ?_⟩
    · rw [processColors_snd]
    · rw [processColors_snd]
    · intro e he sq hsq hpos
      exact processColors_getQtyStore_write item.productId p item.quantities
        hnd.1 hnd.2 base e he sq hsq hpos
  cases hn : item.isNew with
  | true =>
    refine hfinish (setEntry ps p.id p) ?_
    unfold processItem
    rw [hdata, if_pos hn]
    dsimp only
    by_cases hpid : p.id = item.productId
    · rw [hpid, getEntry_setEntry_self]
    · rw [getEntry_setEntry_ne ps p.id item.productId p
        (fun hh => hpid hh.symm), habsent]
  | false =>
    refine hfinish ps ?_
    unfold processItem
    rw [hn]
    simp only [Bool.false_eq_true, if_false]
    rw [habsent, hdata]

def exPayloadProduct : Product :=
  { id := "N1", name := "Cap", purchasePrice := 30,
    colors := [("blue", [("L", 2)])] }

def exNewItem : InvoiceItem :=
  { productId := "N1", isNew := true, productData := some exPayloadProduct,
    quantities := [("blue", [("L", 4)])] }

/-- Witness for the C9 theorem: a flagged-new item whose document is absent
from an empty store is processed from its payload without aborting. -/
theorem saveNewInvoice_payload_fallback_witness :
    getEntry ([] : Store Product) exNewItem.productId = none ∧
    exNewItem.productData = some exPayloadProduct ∧
    nodupQuantities exNewItem.quantities ∧
    (∃ r, processItem ([] : Store Product) exNewItem = Except.ok r ∧
      r.2.1 = costOfQuantities exPayloadProduct exNewItem.quantities ∧
      r.2.2 = linesOfQuantities exNewItem.productId exPayloadProduct
        exNewItem.quantities ∧
      ∀ e ∈ exNewItem.quantities, ∀ sq ∈ e.2, 0 < sq.2 →
        getQtyStore r.1 exNewItem.productId e.1 sq.1 =
          getQty exPayloadProduct e.1 sq.1 + sq.2) :=
  ⟨by decide, by decide, by decide,
    saveNewInvoice_payload_fallback ([] : Store Product) exNewItem
      exPayloadProduct (by decide) (by decide) (by decide)⟩

end BazSport
